import Mathlib

/-!
Verification of the telemetry ingestion and aggregation pipeline of the
neon-orbit IoT dashboard.

The development shallowly embeds the pipeline's TypeScript source:

* `src/lib/perf/ringBuffer.ts`    — the fixed-capacity event ring buffer;
* `src/lib/pool/objectPool.ts`    — the generic acquire/release object pool;
* the telemetry worker (`processBatch`, `self.onmessage`) — per-batch
  aggregation of flow events into node/link maps with BigInt counters;
* the `useAbyssMesh` hook's `worker.onmessage` handler together with the
  zustand `networkStore` (`addNode`/`updateNode`/`addLink`/`updateLink`) —
  the store reconciler and the rate counter.

Modelling conventions:

* JS `Map` objects are embedded as insertion-ordered association lists
  (`AMap`): `set` of a present key updates the entry in place, `set` of an
  absent key appends, matching JS `Map` iteration order.
* JS `BigInt` is `ℤ`; JS `number` timestamps/coordinates are `ℚ`.
* Optional string/number fields of `TelemetryEvent` are embedded by their
  falsy default (`""` respectively `0`): every single read of such a field in
  the embedded code goes through a truthiness coercion (`evt.src && evt.dst`,
  `evt.bytes || 0`, …), under which `undefined` and the falsy default are
  indistinguishable.
* `Number(bigint)` narrowing in the reconciler is embedded by `toF64`,
  IEEE-754 binary64 rounding of an integer (round to nearest, ties to even,
  53-bit significand; the overflow-to-infinity regime beyond 2^971 is far
  outside any reachable counter value and is not modelled).
* Ambient clock reads (`Date.now() / 1000`, `performance.now()`) are passed
  in as explicit parameters.
-/

/-! ## Insertion-ordered association maps (JS `Map`) -/

/-- Lookup in an insertion-ordered association list (JS `Map.get`). -/
def AMap.get {α : Type} (m : List (String × α)) (k : String) : Option α :=
  match m with
  | [] => none
  | (k', v) :: t => if k' = k then some v else AMap.get t k

/-- `Map.set`: update a present key in place, append an absent key. -/
def AMap.set {α : Type} (m : List (String × α)) (k : String) (v : α) :
    List (String × α) :=
  match m with
  | [] => [(k, v)]
  | (k', v') :: t => if k' = k then (k, v) :: t else (k', v') :: AMap.set t k v

/-- Keys in insertion order (`Map.keys`). -/
def AMap.keys {α : Type} (m : List (String × α)) : List String :=
  m.map Prod.fst

/-- Values in insertion order (`Array.from(map.values())`). -/
def AMap.values {α : Type} (m : List (String × α)) : List α :=
  m.map Prod.snd

theorem AMap.get_set_self {α : Type} (m : List (String × α)) (k : String) (v : α) :
    AMap.get (AMap.set m k v) k = some v := by
  induction m with
  | nil => simp [AMap.get, AMap.set]
  | cons hd t ih =>
    obtain ⟨k', v'⟩ := hd
    by_cases h : k' = k <;> simp [AMap.get, AMap.set, h, ih]

theorem AMap.get_set_ne {α : Type} (m : List (String × α)) (k k' : String) (v : α)
    (h : k ≠ k') : AMap.get (AMap.set m k v) k' = AMap.get m k' := by
  induction m with
  | nil => simp [AMap.get, AMap.set, h]
  | cons hd t ih =>
    obtain ⟨k0, v0⟩ := hd
    by_cases h0 : k0 = k
    · subst h0
      simp [AMap.get, AMap.set, h]
    · simp only [AMap.set, if_neg h0, AMap.get]
      by_cases h1 : k0 = k' <;> simp [h1, ih]

theorem AMap.get_append {α : Type} (m₁ m₂ : List (String × α)) (k : String) :
    AMap.get (m₁ ++ m₂) k =
      match AMap.get m₁ k with
      | some v => some v
      | none => AMap.get m₂ k := by
  induction m₁ with
  | nil => simp [AMap.get]
  | cons hd t ih =>
    obtain ⟨k', v'⟩ := hd
    by_cases h : k' = k <;> simp [AMap.get, h, ih]

/-! ## Telemetry events (worker-side `TelemetryEvent` interface) -/

/-- The closed set of event kinds: `'flow' | 'bgp' | 'dns' | 'threat'`. -/
inductive EvType where
  | flow
  | bgp
  | dns
  | threat
deriving DecidableEq, Repr

/-- `TelemetryEvent` from the telemetry worker.  Optional fields are carried
at their falsy default (`""` / `0`), see the header comment. -/
structure TelemetryEvent where
  type : EvType
  src : String := ""
  dst : String := ""
  srcPort : ℕ := 0
  dstPort : ℕ := 0
  protocol : String := ""
  packets : ℕ := 0
  bytes : ℕ := 0
  timestamp : ℚ := 0
  lat : ℚ := 0
  lng : ℚ := 0
  country : String := ""
  asn : ℕ := 0
  org : String := ""
deriving DecidableEq, Repr

/-- `BigInt(evt.packets || 1)`. -/
def packetsOf (e : TelemetryEvent) : ℤ :=
  if e.packets = 0 then 1 else (e.packets : ℤ)

/-- `BigInt(evt.bytes || 0)`. -/
def bytesOf (e : TelemetryEvent) : ℤ := (e.bytes : ℤ)

/-- `evt.timestamp || Date.now() / 1000` with the ambient clock passed in. -/
def tsOf (now : ℚ) (e : TelemetryEvent) : ℚ :=
  if e.timestamp = 0 then now else e.timestamp

/-- `evt.protocol || 'tcp'`. -/
def protoOf (e : TelemetryEvent) : String :=
  if e.protocol = "" then "tcp" else e.protocol

/-- `evt.country || 'Unknown'`. -/
def countryOf (e : TelemetryEvent) : String :=
  if e.country = "" then "Unknown" else e.country

/-! ## Worker-side aggregate records (nodePool / linkPool factories) -/

/-- The record shape produced by the worker's `nodePool` factory. -/
structure WNode where
  id : String := ""
  ip : String := ""
  lat : ℚ := 0
  lng : ℚ := 0
  country : String := ""
  asn : ℕ := 0
  org : String := ""
  packets : ℤ := 0
  bytes : ℤ := 0
  topPorts : List ℕ := []
  lastSeen : ℚ := 0
  packetHistory : List (ℚ × ℕ) := []
  x : ℚ := 0
  y : ℚ := 0
  z : ℚ := 0
deriving DecidableEq, Repr

/-- The record shape produced by the worker's `linkPool` factory. -/
structure WLink where
  id : String := ""
  source : String := ""
  target : String := ""
  srcPort : ℕ := 0
  dstPort : ℕ := 0
  protocol : String := ""
  bytes : ℤ := 0
  packets : ℤ := 0
  lastSeen : ℚ := 0
deriving DecidableEq, Repr

/-- The `nodePool` factory: every field at its zero/empty default. -/
def nodeFactory : WNode := {}

/-- The `linkPool` factory. -/
def linkFactory : WLink := {}

/-- The `nodePool` reset callback: clears packets, bytes, topPorts and
packetHistory — and nothing else. -/
def nodeReset (n : WNode) : WNode :=
  { n with packets := 0, bytes := 0, topPorts := [], packetHistory := [] }

/-- The `linkPool` reset callback: clears packets, bytes and lastSeen. -/
def linkReset (l : WLink) : WLink :=
  { l with packets := 0, bytes := 0, lastSeen := 0 }

/-! ## Worker pool free lists

The worker module's `nodePool`/`linkPool` are `ObjectPool` instances on which
the worker only ever calls `acquire` (it never releases), and every record it
acquires is published by value through `postMessage`'s structured clone.  The
pools are therefore embedded inside the worker by their free lists of record
values; the identity-sensitive `acquire`/`release` protocol of
`objectPool.ts` is embedded separately below for the pool claims. -/

/-- `this.pool.pop() || this.factory()`: JS `Array.pop` takes the last
element; an empty pool falls back to the factory. -/
def wacquire {T : Type} (factory : T) (free : List T) : T × List T :=
  match free.getLast? with
  | some t => (t, free.dropLast)
  | none => (factory, free)

/-- The accumulator threaded through `processBatch`'s event loop. -/
structure BatchState where
  nodes : List (String × WNode)
  links : List (String × WLink)
  totalPackets : ℤ
  totalBytes : ℤ
  npool : List WNode
  lpool : List WLink
deriving DecidableEq, Repr

/-- One iteration of `processBatch`'s `for (const evt of events)` loop.
Events that are not flows, or that lack a truthy `src` or `dst`, fall through
the single `if` and leave the state untouched. -/
def processStep (now : ℚ) (st : BatchState) (evt : TelemetryEvent) : BatchState :=
  if evt.type = EvType.flow ∧ evt.src ≠ "" ∧ evt.dst ≠ "" then
    let acq1 :=
      match AMap.get st.nodes evt.src with
      | some n => (n, st.nodes, st.npool)
      | none =>
        let fresh := wacquire nodeFactory st.npool
        let n := { fresh.1 with
          id := evt.src, ip := evt.src, lat := evt.lat,
          lng := evt.lng, country := countryOf evt, asn := evt.asn,
          org := evt.org }
        (n, AMap.set st.nodes evt.src n, fresh.2)
    let srcNode := { acq1.1 with
      packets := acq1.1.packets + packetsOf evt,
      bytes := acq1.1.bytes + bytesOf evt,
      lastSeen := tsOf now evt }
    let nodes2 := AMap.set acq1.2.1 evt.src srcNode
    let acq2 :=
      match AMap.get nodes2 evt.dst with
      | some n => (n, nodes2, acq1.2.2)
      | none =>
        let fresh := wacquire nodeFactory acq1.2.2
        let n := { fresh.1 with
          id := evt.dst, ip := evt.dst, lat := evt.lat,
          lng := evt.lng, country := countryOf evt, asn := evt.asn,
          org := evt.org }
        (n, AMap.set nodes2 evt.dst n, fresh.2)
    let dstNode := { acq2.1 with
      packets := acq2.1.packets + packetsOf evt,
      bytes := acq2.1.bytes + bytesOf evt,
      lastSeen := tsOf now evt }
    let nodes4 := AMap.set acq2.2.1 evt.dst dstNode
    let linkKey := evt.src ++ "-" ++ evt.dst ++ "-" ++ protoOf evt
    let acq3 :=
      match AMap.get st.links linkKey with
      | some l => (l, st.links, st.lpool)
      | none =>
        let fresh := wacquire linkFactory st.lpool
        let l := { fresh.1 with
          id := linkKey, source := evt.src,
          target := evt.dst, srcPort := evt.srcPort,
          dstPort := evt.dstPort, protocol := protoOf evt }
        (l, AMap.set st.links linkKey l, fresh.2)
    let link := { acq3.1 with
      packets := acq3.1.packets + packetsOf evt,
      bytes := acq3.1.bytes + bytesOf evt,
      lastSeen := tsOf now evt }
    let links2 := AMap.set acq3.2.1 linkKey link
    { nodes := nodes4, links := links2,
      totalPackets := st.totalPackets + packetsOf evt,
      totalBytes := st.totalBytes + bytesOf evt,
      npool := acq2.2.2, lpool := acq3.2.2 }
  else st

/-- The `stats` field of `ProcessedBatch`.  Its fields are exactly the four
the source declares: `packets`, `bytes`, `nodeCount`, `linkCount`. -/
structure BatchStats where
  packets : ℤ
  bytes : ℤ
  nodeCount : ℕ
  linkCount : ℕ
deriving DecidableEq, Repr

/-- `ProcessedBatch`: the worker's result for one batch. -/
structure ProcessedBatch where
  nodes : List (String × WNode)
  links : List (String × WLink)
  stats : BatchStats
deriving DecidableEq, Repr

/-- `processBatch(events)`, threading the module-level pool free lists
(which are `[]` in the running module: nothing ever releases into them). -/
def processBatch (now : ℚ) (npool : List WNode) (lpool : List WLink)
    (events : List TelemetryEvent) : ProcessedBatch × List WNode × List WLink :=
  let st := events.foldl (processStep now)
    { nodes := [], links := [], totalPackets := 0, totalBytes := 0,
      npool := npool, lpool := lpool }
  (⟨st.nodes, st.links,
    ⟨st.totalPackets, st.totalBytes, st.nodes.length, st.links.length⟩⟩,
   st.npool, st.lpool)

/-- The message posted back by `self.onmessage` on success: the node and
link maps converted to arrays (`Array.from(map.values())`) plus the stats. -/
structure WorkerMessage where
  nodes : List WNode
  links : List WLink
  stats : BatchStats
deriving DecidableEq, Repr

/-- `self.onmessage`'s success path (the `catch` branch is unreachable in
the embedding: `processBatch` is total). -/
def workerOnMessage (now : ℚ) (npool : List WNode) (lpool : List WLink)
    (events : List TelemetryEvent) : WorkerMessage × List WNode × List WLink :=
  let r := processBatch now npool lpool events
  (⟨AMap.values r.1.nodes, AMap.values r.1.links, r.1.stats⟩, r.2.1, r.2.2)

/-! ## IEEE-754 binary64 narrowing (`Number(bigint)`) -/

/-- Round a natural number to the nearest IEEE-754 binary64 value (53-bit
significand, round to nearest, ties to even), returned as the integer the
double denotes.  Exact below `2^53`. -/
def natToF64 (n : ℕ) : ℕ :=
  if n ≤ 2 ^ 53 then n
  else
    let e := Nat.log 2 n - 52
    let q := n / 2 ^ e
    let r := n % 2 ^ e
    let half := 2 ^ (e - 1)
    let q' := if half < r ∨ (r = half ∧ q % 2 = 1) then q + 1 else q
    q' * 2 ^ e

/-- `Number(bigint)` on an integer. -/
def toF64 (n : ℤ) : ℤ :=
  if n < 0 then -(natToF64 n.natAbs : ℤ) else (natToF64 n.natAbs : ℤ)

/-! ## The shared store (`networkStore`) and the reconciler

`StoreNode`/`StoreLink` carry the fields the reconciler writes; the store's
further optional fields (`threatInfo`, BGP metadata, …) are written only by
out-of-scope UI code paths and are omitted, as is the `asNodes` mirror map,
which stays empty on the reconciliation path (`worker nodes never set
`isASNode`). Counters are `number`-typed in the store; they hold `toF64`
images of the worker's BigInt counters. -/

/-- `NetworkNode` as written by the reconciler. -/
structure StoreNode where
  id : String
  ip : String
  lat : ℚ
  lng : ℚ
  country : String
  asn : ℕ
  org : String
  packets : ℤ
  bytes : ℤ
  topPorts : List ℕ
  lastSeen : ℚ
  packetHistory : List (ℚ × ℕ)
deriving DecidableEq, Repr

/-- `NetworkLink` as written by the reconciler. -/
structure StoreLink where
  id : String
  source : String
  target : String
  srcPort : ℕ
  dstPort : ℕ
  protocol : String
  bytes : ℤ
  packets : ℤ
  lastSeen : ℚ
deriving DecidableEq, Repr

/-- The shared store's node and link maps. -/
structure Store where
  nodes : List (String × StoreNode)
  links : List (String × StoreLink)
deriving DecidableEq, Repr

/-- The `updateNode` payload of `worker.onmessage` spread-merged over the
existing store record (`{ ...existing, ...updates }`): the listed fields are
*replaced* by the batch's values. -/
def mergeNode (existing : StoreNode) (n : WNode) : StoreNode :=
  { existing with
    packets := toF64 n.packets,
    bytes := toF64 n.bytes,
    lastSeen := n.lastSeen,
    lat := n.lat,
    lng := n.lng,
    country := n.country,
    asn := n.asn,
    org := n.org }

/-- The `addNode` payload of `worker.onmessage` for an absent id. -/
def freshNode (now : ℚ) (n : WNode) : StoreNode :=
  { id := n.id,
    ip := if n.ip = "" then n.id else n.ip,
    lat := n.lat,
    lng := n.lng,
    country := if n.country = "" then "Unknown" else n.country,
    asn := n.asn,
    org := n.org,
    packets := toF64 n.packets,
    bytes := toF64 n.bytes,
    topPorts := n.topPorts,
    lastSeen := if n.lastSeen = 0 then now else n.lastSeen,
    packetHistory := n.packetHistory }

/-- One `nodes.forEach` iteration of `worker.onmessage`: `updateNode` when
the id is present, `addNode` when absent. -/
def upsertNode (now : ℚ) (nodes : List (String × StoreNode)) (n : WNode) :
    List (String × StoreNode) :=
  match AMap.get nodes n.id with
  | some existing => AMap.set nodes n.id (mergeNode existing n)
  | none => AMap.set nodes n.id (freshNode now n)

/-- The `updateLink` payload spread-merged over the existing record. -/
def mergeLink (existing : StoreLink) (l : WLink) : StoreLink :=
  { existing with
    packets := toF64 l.packets,
    bytes := toF64 l.bytes,
    lastSeen := l.lastSeen }

/-- The `addLink` payload for an absent id. -/
def freshLink (now : ℚ) (l : WLink) : StoreLink :=
  { id := l.id,
    source := l.source,
    target := l.target,
    srcPort := l.srcPort,
    dstPort := l.dstPort,
    protocol := l.protocol,
    bytes := toF64 l.bytes,
    packets := toF64 l.packets,
    lastSeen := if l.lastSeen = 0 then now else l.lastSeen }

/-- One `links.forEach` iteration: `updateLink` when present, `addLink`
when absent. -/
def upsertLink (now : ℚ) (links : List (String × StoreLink)) (l : WLink) :
    List (String × StoreLink) :=
  match AMap.get links l.id with
  | some existing => AMap.set links l.id (mergeLink existing l)
  | none => AMap.set links l.id (freshLink now l)

/-- The reconciler: `worker.onmessage`'s store updates for one result
message (nodes pass, then links pass). -/
def reconcile (now : ℚ) (s : Store) (msg : WorkerMessage) : Store :=
  { nodes := msg.nodes.foldl (upsertNode now) s.nodes,
    links := msg.links.foldl (upsertLink now) s.links }

/-- The empty store. -/
def Store.empty : Store := ⟨[], []⟩

/-! ## Rate counter (`statsRef` update in `worker.onmessage`) -/

/-- `statsRef.current`. -/
structure RateState where
  packetsPerSec : ℤ
  bytesPerSec : ℤ
  lastUpdate : ℚ
deriving DecidableEq, Repr

/-- The stats update at the end of `worker.onmessage`:
`delta = (now - lastUpdate) / 1000`; if `delta > 0` the rates become
`stats.packets / BigInt(Math.floor(delta * 10))` (and likewise bytes).
`none` embeds the `RangeError` that JS BigInt division throws when the
divisor is `0n`.  BigInt division truncates toward zero; the counters here
are non-negative, where `ℤ` division agrees. -/
def updateStats (st : RateState) (statsPackets statsBytes : ℤ) (nowMs : ℚ) :
    Option RateState :=
  let delta : ℚ := (nowMs - st.lastUpdate) / 1000
  if 0 < delta then
    let d : ℤ := ⌊delta * 10⌋
    if d = 0 then none
    else some { packetsPerSec := statsPackets / d,
                bytesPerSec := statsBytes / d,
                lastUpdate := nowMs }
  else some { st with lastUpdate := nowMs }

/-! ## Ring buffer (`src/lib/perf/ringBuffer.ts`)

`buffer` is the pre-allocated slot array (a total function; only indices
below `capacity` are ever addressed).  `push(item)` runs
`Object.assign(slot, item)` on the current write slot: the slot's new value
is a function of its previous occupant, embedded here by passing that
function (`upd`) to `push`.  A complete item makes `upd` a constant
function; a partial item keeps the omitted fields of the previous
occupant. -/

structure RingBuffer (T : Type) where
  capacity : ℕ
  buffer : ℕ → T
  write : ℕ
  read : ℕ
  size : ℕ

/-- The constructor: `capacity` slots pre-filled with `factory()` values. -/
def mkRingBuffer {T : Type} (capacity : ℕ) (factory : T) : RingBuffer T :=
  { capacity := capacity, buffer := fun _ => factory, write := 0, read := 0,
    size := 0 }

/-- `push`: assign into the write slot, advance `write` modulo the capacity;
grow `size` while not full, otherwise advance `read` (drop-oldest). -/
def RingBuffer.push {T : Type} (rb : RingBuffer T) (upd : T → T) :
    RingBuffer T :=
  let obj := upd (rb.buffer rb.write)
  let buf : ℕ → T := fun i => if i = rb.write then obj else rb.buffer i
  let w := (rb.write + 1) % rb.capacity
  if rb.size < rb.capacity then
    { rb with buffer := buf, write := w, size := rb.size + 1 }
  else
    { rb with buffer := buf, write := w, read := (rb.read + 1) % rb.capacity }

/-- `getSize()`. -/
def RingBuffer.getSize {T : Type} (rb : RingBuffer T) : ℕ := rb.size

/-- `isFull()`. -/
def RingBuffer.isFull {T : Type} (rb : RingBuffer T) : Prop :=
  rb.size = rb.capacity

/-- `clear()`. -/
def RingBuffer.clear {T : Type} (rb : RingBuffer T) : RingBuffer T :=
  { rb with size := 0, read := 0, write := 0 }

/-- The iterator / `toArray()`: the `size` currently-held items starting at
`read`, in insertion order. -/
def RingBuffer.toArray {T : Type} (rb : RingBuffer T) : List T :=
  (List.range rb.size).map fun i => rb.buffer ((rb.read + i) % rb.capacity)

/-- `push` with a complete item (every field present): `Object.assign`
replaces the whole slot value. -/
def RingBuffer.pushItem {T : Type} (rb : RingBuffer T) (x : T) : RingBuffer T :=
  rb.push fun _ => x

/-- A sequence of complete-item pushes. -/
def RingBuffer.pushAll {T : Type} (rb : RingBuffer T) (xs : List T) :
    RingBuffer T :=
  xs.foldl RingBuffer.pushItem rb

/-- `Partial<TelemetryEvent>`: field-wise presence, as consumed by
`Object.assign`. -/
structure PartialEvent where
  type : Option EvType := none
  src : Option String := none
  dst : Option String := none
  srcPort : Option ℕ := none
  dstPort : Option ℕ := none
  protocol : Option String := none
  packets : Option ℕ := none
  bytes : Option ℕ := none
  timestamp : Option ℚ := none
  lat : Option ℚ := none
  lng : Option ℚ := none
  country : Option String := none
  asn : Option ℕ := none
  org : Option String := none
deriving DecidableEq, Repr

/-- `Object.assign(obj, item)` for a partial event: present fields
overwrite, absent fields keep the slot object's current values. -/
def assignEvent (old : TelemetryEvent) (p : PartialEvent) : TelemetryEvent :=
  { type := p.type.getD old.type,
    src := p.src.getD old.src,
    dst := p.dst.getD old.dst,
    srcPort := p.srcPort.getD old.srcPort,
    dstPort := p.dstPort.getD old.dstPort,
    protocol := p.protocol.getD old.protocol,
    packets := p.packets.getD old.packets,
    bytes := p.bytes.getD old.bytes,
    timestamp := p.timestamp.getD old.timestamp,
    lat := p.lat.getD old.lat,
    lng := p.lng.getD old.lng,
    country := p.country.getD old.country,
    asn := p.asn.getD old.asn,
    org := p.org.getD old.org }

/-- `push` of a partial event record. -/
def RingBuffer.pushPartial (rb : RingBuffer TelemetryEvent)
    (p : PartialEvent) : RingBuffer TelemetryEvent :=
  rb.push fun old => assignEvent old p

/-- The factory of the `useAbyssMesh` event ring buffer:
`{ type: 'flow', src: '', dst: '', packets: 0, bytes: 0, timestamp: 0 }`
(the remaining optional fields are absent, i.e. at their falsy default). -/
def bufferFactory : TelemetryEvent :=
  { type := .flow, src := "", dst := "", packets := 0, bytes := 0,
    timestamp := 0 }

/-! ## Object pool (`src/lib/pool/objectPool.ts`)

Embedded as an arena: records live in `store` at integer ids standing for
JS object identities; `free` is the free `Array` (`push`/`pop` operate on
its end), `activeIds` the `WeakSet` of active records, and `next` allocates
fresh ids for factory-created records.  The pools of interest supply an
explicit reset callback, passed here as the `reset` argument of
`release`. -/

structure Pool (T : Type) where
  store : ℕ → T
  free : List ℕ
  activeIds : List ℕ
  next : ℕ

/-- A pool with no records yet. -/
def Pool.init {T : Type} (factory : T) : Pool T :=
  { store := fun _ => factory, free := [], activeIds := [], next := 0 }

/-- `acquire()`: `this.pool.pop() || this.factory()`, then mark active. -/
def Pool.acquire {T : Type} (factory : T) (p : Pool T) : ℕ × Pool T :=
  match p.free.getLast? with
  | some i =>
    (i, { p with free := p.free.dropLast, activeIds := i :: p.activeIds })
  | none =>
    (p.next,
     { p with
       store := fun j => if j = p.next then factory else p.store j,
       activeIds := p.next :: p.activeIds, next := p.next + 1 })

/-- `release(obj)`: no-op unless active; otherwise apply the reset callback
to the record, drop it from the active set and push it on the free list. -/
def Pool.release {T : Type} (reset : T → T) (p : Pool T) (i : ℕ) : Pool T :=
  if i ∈ p.activeIds then
    { p with
      store := fun j => if j = i then reset (p.store j) else p.store j,
      activeIds := p.activeIds.filter (fun j => j ≠ i),
      free := p.free ++ [i] }
  else p

/-- `getSize()`: the number of pooled (inactive) records. -/
def Pool.getSize {T : Type} (p : Pool T) : ℕ := p.free.length

/-- A caller mutating the fields of a record it holds (a JS reference
write into the arena). -/
def Pool.setRecord {T : Type} (p : Pool T) (i : ℕ) (v : T) : Pool T :=
  { p with store := fun j => if j = i then v else p.store j }

/-! ## Further association-map lemmas -/

theorem AMap.set_absent {α : Type} (m : List (String × α)) (k : String) (v : α)
    (h : AMap.get m k = none) : AMap.set m k v = m ++ [(k, v)] := by
  induction m with
  | nil => rfl
  | cons hd t ih =>
    obtain ⟨k0, v0⟩ := hd
    by_cases h0 : k0 = k
    · simp [AMap.get, h0] at h
    · simp only [AMap.get, if_neg h0] at h
      simp [AMap.set, h0, ih h]

theorem AMap.get_none_iff {α : Type} (m : List (String × α)) (k : String) :
    AMap.get m k = none ↔ k ∉ AMap.keys m := by
  induction m with
  | nil => simp [AMap.get, AMap.keys]
  | cons hd t ih =>
    obtain ⟨k0, v0⟩ := hd
    by_cases h0 : k0 = k
    · subst h0
      simp [AMap.get, AMap.keys]
    · have h0' : ¬k = k0 := fun e => h0 e.symm
      simp [AMap.get, AMap.keys, h0, h0', ih]

/-! ## Claims about the object pool -/

/-- C10: a record `x` tracked as active that is released goes to the end of
the free array, and the next `acquire` pops it right back: the free list is
a LIFO stack. -/
theorem release_then_acquire_returns_same {T : Type} (factory : T)
    (reset : T → T) (p : Pool T) (i : ℕ) (h : i ∈ p.activeIds) :
    (Pool.acquire factory (Pool.release reset p i)).1 = i := by
  unfold Pool.release
  rw [if_pos h]
  unfold Pool.acquire
  simp

/-- Witness for C10 at a concrete pool holding one active record. -/
theorem release_then_acquire_returns_same_witness :
    7 ∈ [7] ∧
    (Pool.acquire (0 : ℕ)
      (Pool.release id
        ({ store := fun _ => 0, free := [], activeIds := [7], next := 8 } :
          Pool ℕ) 7)).1 = 7 :=
  ⟨by decide,
   release_then_acquire_returns_same 0 id
     { store := fun _ => 0, free := [], activeIds := [7], next := 8 } 7
     (by decide)⟩

/-- C8 (amended): releasing an active node record runs the `nodePool` reset,
so the record handed back by the next `acquire` is the same record with
`packets`, `bytes`, `topPorts` and `packetHistory` at their reset defaults
(in particular `bytes == 0`). -/
theorem nodePool_release_resets_counters (p : Pool WNode) (i : ℕ)
    (h : i ∈ p.activeIds) :
    (Pool.acquire nodeFactory (Pool.release nodeReset p i)).1 = i ∧
    ((Pool.acquire nodeFactory (Pool.release nodeReset p i)).2.store i).packets = 0 ∧
    ((Pool.acquire nodeFactory (Pool.release nodeReset p i)).2.store i).bytes = 0 ∧
    ((Pool.acquire nodeFactory (Pool.release nodeReset p i)).2.store i).topPorts = [] ∧
    ((Pool.acquire nodeFactory (Pool.release nodeReset p i)).2.store i).packetHistory = [] := by
  unfold Pool.release
  rw [if_pos h]
  unfold Pool.acquire
  simp [nodeReset]

/-- Witness for the amended C8 at a concrete dirty record. -/
theorem nodePool_release_resets_counters_witness :
    3 ∈ [3] ∧
    ((Pool.acquire nodeFactory
        (Pool.release nodeReset
          ({ store := fun _ =>
              { nodeFactory with id := "10.0.0.1", packets := 5, bytes := 100 },
             free := [], activeIds := [3], next := 4 } : Pool WNode) 3)).1 = 3 ∧
      ((Pool.acquire nodeFactory
        (Pool.release nodeReset
          ({ store := fun _ =>
              { nodeFactory with id := "10.0.0.1", packets := 5, bytes := 100 },
             free := [], activeIds := [3], next := 4 } : Pool WNode) 3)).2.store 3).packets = 0 ∧
      ((Pool.acquire nodeFactory
        (Pool.release nodeReset
          ({ store := fun _ =>
              { nodeFactory with id := "10.0.0.1", packets := 5, bytes := 100 },
             free := [], activeIds := [3], next := 4 } : Pool WNode) 3)).2.store 3).bytes = 0 ∧
      ((Pool.acquire nodeFactory
        (Pool.release nodeReset
          ({ store := fun _ =>
              { nodeFactory with id := "10.0.0.1", packets := 5, bytes := 100 },
             free := [], activeIds := [3], next := 4 } : Pool WNode) 3)).2.store 3).topPorts = [] ∧
      ((Pool.acquire nodeFactory
        (Pool.release nodeReset
          ({ store := fun _ =>
              { nodeFactory with id := "10.0.0.1", packets := 5, bytes := 100 },
             free := [], activeIds := [3], next := 4 } : Pool WNode) 3)).2.store 3).packetHistory = []) :=
  ⟨by decide,
   nodePool_release_resets_counters
     { store := fun _ =>
        { nodeFactory with id := "10.0.0.1", packets := 5, bytes := 100 },
       free := [], activeIds := [3], next := 4 } 3 (by decide)⟩

/-- C8 (counterexample): the `nodePool` reset clears only the counters and
history; `lastSeen` (like `id`, `ip`, …) is a mutable field the worker
writes on every flow, and its pre-release value 42 survives release and is
observed by the next `acquire` — the reset does not cover all mutable
fields. -/
theorem nodePool_release_leaks_lastSeen :
    (((Pool.acquire nodeFactory
        (Pool.release nodeReset
          (Pool.setRecord (Pool.acquire nodeFactory (Pool.init nodeFactory)).2
            (Pool.acquire nodeFactory (Pool.init nodeFactory)).1
            { nodeFactory with
              id := "10.0.0.1", packets := 5, bytes := 100, lastSeen := 42 })
          (Pool.acquire nodeFactory (Pool.init nodeFactory)).1)).2.store
       (Pool.acquire nodeFactory (Pool.init nodeFactory)).1).lastSeen = 42) ∧
    nodeFactory.lastSeen = 0 := by
  constructor
  · rfl
  · rfl

/-! ## Claim C5: the rate counter -/

/-- C5 (failing input): with the previous sample 50 ms ago — the configured
batch cadence — `delta = 0.05 > 0` passes the guard, but the divisor
`BigInt(Math.floor(delta * 10))` is `0n` and the BigInt division throws
(`none`): elapsed time is not clamped to a positive epsilon and the division
does blow up on short cycles. -/
theorem rate_counter_throws_at_batch_cadence :
    updateStats ⟨0, 0, 0⟩ 100 200 50 = none := by
  unfold updateStats
  have h2 : (0 : ℚ) < (50 - 0) / 1000 := by norm_num
  have h1 : ((50 : ℚ) - 0) / 1000 * 10 = 1 / 2 := by norm_num
  rw [if_pos h2, h1]
  norm_num

/-! ## Concrete events used by the worker claims -/

/-- A valid tcp flow `10.0.0.1 → 10.0.0.2`, packets 3, bytes 7. -/
def evTcp : TelemetryEvent :=
  { type := .flow, src := "10.0.0.1", dst := "10.0.0.2", protocol := "tcp",
    packets := 3, bytes := 7 }

/-- The same flow over udp. -/
def evUdp : TelemetryEvent :=
  { type := .flow, src := "10.0.0.1", dst := "10.0.0.2", protocol := "udp",
    packets := 3, bytes := 7 }

/-- A valid single-packet flow. -/
def evFlow64 : TelemetryEvent :=
  { type := .flow, src := "10.0.0.1", dst := "10.0.0.2", packets := 1,
    bytes := 64 }

/-- A `dns` (name-resolution) event. -/
def evDns : TelemetryEvent :=
  { type := .dns, src := "10.0.0.1", dst := "8.8.8.8" }

/-- A `threat` event naming entity `10.0.0.9`. -/
def evThreat : TelemetryEvent :=
  { type := .threat, src := "10.0.0.9", dst := "10.0.0.7", asn := 13335 }

/-- A flow event with a missing (falsy) destination id. -/
def malformedTenth : TelemetryEvent :=
  { type := .flow, src := "10.0.0.3", dst := "", packets := 3, bytes := 7 }

/-- A batch of nine well-formed flow events (packets 3, bytes 7 each,
between `10.0.0.1` and `10.0.0.2`, alternating protocols). -/
def validNine : List TelemetryEvent :=
  [evTcp, evUdp, evTcp, evUdp, evTcp, evUdp, evTcp, evUdp, evTcp]

/-! ## Skipped events in `processBatch` -/

/-- An event that fails `evt.type === 'flow' && evt.src && evt.dst` leaves
the whole batch accumulator untouched. -/
theorem processStep_skip (now : ℚ) (st : BatchState) (e : TelemetryEvent)
    (h : ¬(e.type = EvType.flow ∧ e.src ≠ "" ∧ e.dst ≠ "")) :
    processStep now st e = st := by
  unfold processStep
  rw [if_neg h]

/-- C9 (amended): a non-flow event (`bgp`, `dns`, `threat`) is ignored
entirely by the aggregation worker — dropping it from a batch changes
nothing in the result: neither traffic counters nor any metadata field of
any entity is updated. -/
theorem nonflow_event_is_ignored (now : ℚ) (np : List WNode) (lp : List WLink)
    (es : List TelemetryEvent) (e : TelemetryEvent)
    (h : e.type ≠ EvType.flow) :
    processBatch now np lp (es ++ [e]) = processBatch now np lp es := by
  unfold processBatch
  rw [List.foldl_append]
  rw [show ∀ st, List.foldl (processStep now) st [e] = processStep now st e
        from fun st => rfl]
  rw [processStep_skip _ _ _ (fun hc => h hc.1)]

/-- Witness for the amended C9: dropping a `dns` event from a concrete
two-event batch leaves the result unchanged. -/
theorem nonflow_event_is_ignored_witness :
    evDns.type ≠ EvType.flow ∧
    processBatch 0 [] [] ([evFlow64] ++ [evDns]) =
      processBatch 0 [] [] [evFlow64] :=
  ⟨by decide, nonflow_event_is_ignored 0 [] [] [evFlow64] evDns (by decide)⟩

/-- C9 (counterexample): a `threat` event naming entity `10.0.0.9` leaves
the worker result completely empty — the identified entity's metadata
(e.g. a threat annotation) is *not* updated: no record for it is emitted at
all. -/
theorem threat_event_updates_no_metadata :
    (processBatch 0 [] [] [evThreat]).1 = ⟨[], [], ⟨0, 0, 0, 0⟩⟩ := by
  decide

/-! ## Claim C4: malformed events -/

/-- C4 (amended): a flow event with a missing (falsy) source or destination
id is skipped wherever it occurs in a batch, without aborting the batch:
the result is the same as if the event were absent, and the remaining
events are processed normally.  No dropped-event count is reported (see the
counterexample theorem). -/
theorem malformed_event_skipped (now : ℚ) (np : List WNode) (lp : List WLink)
    (pre suf : List TelemetryEvent) (e : TelemetryEvent)
    (h : e.src = "" ∨ e.dst = "") :
    processBatch now np lp (pre ++ e :: suf) =
      processBatch now np lp (pre ++ suf) := by
  unfold processBatch
  rw [List.foldl_append, List.foldl_append]
  rw [show (e :: suf) = [e] ++ suf from rfl, List.foldl_append]
  rw [show ∀ st, List.foldl (processStep now) st [e] = processStep now st e
        from fun st => rfl]
  rw [processStep_skip]
  rcases h with h | h
  · exact fun hc => hc.2.1 h
  · exact fun hc => hc.2.2 h

/-- Witness for the amended C4: the malformed event dropped from the middle
of a concrete three-event batch. -/
theorem malformed_event_skipped_witness :
    (malformedTenth.src = "" ∨ malformedTenth.dst = "") ∧
    processBatch 0 [] [] ([evTcp] ++ malformedTenth :: [evUdp]) =
      processBatch 0 [] [] ([evTcp] ++ [evUdp]) :=
  ⟨by decide,
   malformed_event_skipped 0 [] [] [evTcp] [evUdp] malformedTenth
     (Or.inr (by decide))⟩

/-- C4 (counterexample): the batch result carries *no* dropped-event tally.
For the spec's own scenario — one event with a missing destination among
nine valid events, so exactly one event is dropped — the returned result is
indistinguishable from that of the nine valid events alone, and its stats
consist of exactly `packets = 27`, `bytes = 63`, `nodeCount = 2`,
`linkCount = 2`: no component of the returned message records the one
dropped event. -/
theorem batch_result_has_no_droppedEvents_tally :
    (processBatch 0 [] [] (validNine ++ [malformedTenth])).1 =
      (processBatch 0 [] [] validNine).1 ∧
    (processBatch 0 [] [] (validNine ++ [malformedTenth])).1.stats =
      ⟨27, 63, 2, 2⟩ ∧
    (27 : ℤ) ≠ 1 ∧ (63 : ℤ) ≠ 1 ∧ (2 : ℕ) ≠ 1 := by
  decide

/-! ## `Number(bigint)` exactness below the 53-bit bound -/

theorem natToF64_of_le (n : ℕ) (h : n ≤ 2 ^ 53) : natToF64 n = n := by
  unfold natToF64
  rw [if_pos h]

theorem toF64_coe_of_le (n : ℕ) (h : n ≤ 2 ^ 53) : toF64 (n : ℤ) = n := by
  unfold toF64
  rw [if_neg (not_lt.2 (Int.natCast_nonneg n))]
  rw [Int.natAbs_ofNat, natToF64_of_le n h]

/-! ## Claim C1: reconciliation of repeated keys -/

/-- A flow event addressed to node `10.0.0.2` carrying `p` packets. -/
def evP (p : ℕ) : TelemetryEvent :=
  { type := .flow, src := "10.0.0.1", dst := "10.0.0.2", packets := p,
    bytes := 10 }

/-- C1 (amended): two flow events addressed to node `10.0.0.2` with packet
counts `p1`, `p2` (nonzero, total within the float-exact range).  Processed
in one batch, the reconciled store shows `p1 + p2` for that node; processed
in two sequential batches, the reconciler finds the key already present and
*replaces* the stored cumulative counter with the second batch's per-batch
value, leaving `p2`. -/
theorem node_counter_one_batch_adds_two_batches_replace (p1 p2 : ℕ)
    (h1 : p1 ≠ 0) (h2 : p2 ≠ 0) (hs : p1 + p2 ≤ 2 ^ 53) :
    (AMap.get (reconcile 0 Store.empty
        (workerOnMessage 0 [] [] [evP p1, evP p2]).1).nodes "10.0.0.2").map
      StoreNode.packets = some ((p1 : ℤ) + p2) ∧
    (AMap.get (reconcile 0
        (reconcile 0 Store.empty (workerOnMessage 0 [] [] [evP p1]).1)
        (workerOnMessage 0 [] [] [evP p2]).1).nodes "10.0.0.2").map
      StoreNode.packets = some (p2 : ℤ) := by
  have e12 : toF64 ((p1 : ℤ) + p2) = (p1 : ℤ) + p2 := by
    have h := toF64_coe_of_le (p1 + p2) hs
    push_cast at h
    exact h
  have e2 : toF64 (p2 : ℤ) = (p2 : ℤ) :=
    toF64_coe_of_le p2 (le_trans (Nat.le_add_left p2 p1) hs)
  constructor
  · rw [← e12]
    simp +decide [workerOnMessage, processBatch, List.foldl, processStep, evP,
      packetsOf, bytesOf, tsOf, protoOf, countryOf, AMap.get, AMap.set,
      AMap.values, wacquire, reconcile, upsertNode, upsertLink, mergeNode,
      freshNode, Store.empty, List.map, nodeFactory, h1, h2]
  · rw [← e2]
    simp +decide [workerOnMessage, processBatch, List.foldl, processStep, evP,
      packetsOf, bytesOf, tsOf, protoOf, countryOf, AMap.get, AMap.set,
      AMap.values, wacquire, reconcile, upsertNode, upsertLink, mergeNode,
      freshNode, Store.empty, List.map, nodeFactory, h1, h2]

/-- Witness for the amended C1 at `p1 = 1`, `p2 = 2`. -/
theorem node_counter_one_batch_adds_two_batches_replace_witness :
    ((1 : ℕ) ≠ 0 ∧ (2 : ℕ) ≠ 0 ∧ 1 + 2 ≤ 2 ^ 53) ∧
    ((AMap.get (reconcile 0 Store.empty
        (workerOnMessage 0 [] [] [evP 1, evP 2]).1).nodes "10.0.0.2").map
      StoreNode.packets = some ((1 : ℤ) + 2) ∧
    (AMap.get (reconcile 0
        (reconcile 0 Store.empty (workerOnMessage 0 [] [] [evP 1]).1)
        (workerOnMessage 0 [] [] [evP 2]).1).nodes "10.0.0.2").map
      StoreNode.packets = some (2 : ℤ)) :=
  ⟨⟨by decide, by decide, by norm_num⟩,
   node_counter_one_batch_adds_two_batches_replace 1 2 (by decide) (by decide)
     (by norm_num)⟩

/-- C1 (counterexample): events with packet counts 1 and 2 addressed to
node `10.0.0.2`, processed in two sequential batches, leave the node's
counter at 2, not 1 + 2 = 3: with the key already present, the reconciler
replaces the cumulative counter instead of adding the batch delta. -/
theorem two_sequential_batches_lose_first_count :
    (AMap.get (reconcile 0
        (reconcile 0 Store.empty (workerOnMessage 0 [] [] [evP 1]).1)
        (workerOnMessage 0 [] [] [evP 2]).1).nodes "10.0.0.2").map
      StoreNode.packets = some 2 ∧ (2 : ℤ) ≠ 1 + 2 := by
  decide

/-! ## Claim C2: order of worker result batches -/

/-- Membership in the key list from a successful lookup. -/
theorem AMap.mem_keys_of_get_some {α : Type} {m : List (String × α)}
    {k : String} {v : α} (h : AMap.get m k = some v) : k ∈ AMap.keys m := by
  by_contra hk
  rw [(AMap.get_none_iff m k).2 hk] at h
  exact Option.noConfusion h

/-- Folding an upsert over records whose keys are all absent (and mutually
distinct) appends the fresh records in order. -/
theorem foldl_upsert_absent {α β : Type}
    (f : List (String × α) → β → List (String × α)) (key : β → String)
    (fresh : β → α)
    (hf : ∀ m b, AMap.get m (key b) = none →
      f m b = AMap.set m (key b) (fresh b))
    (bs : List β) : ∀ m : List (String × α),
    (∀ b ∈ bs, AMap.get m (key b) = none) → (bs.map key).Nodup →
    bs.foldl f m = m ++ bs.map fun b => (key b, fresh b) := by
  induction bs with
  | nil =>
    intro m _ _
    simp
  | cons b bs ih =>
    intro m habs hnd
    have hb : AMap.get m (key b) = none := habs b (List.mem_cons_self b bs)
    have hnd' := List.nodup_cons.mp hnd
    rw [List.foldl_cons, hf m b hb, AMap.set_absent m (key b) (fresh b) hb]
    rw [ih (m ++ [(key b, fresh b)]) ?habs hnd'.2]
    · simp
    case habs =>
      intro b' hb'
      rw [AMap.get_append, habs b' (List.mem_cons_of_mem b hb')]
      have hkk : ¬key b = key b' :=
        fun e => hnd'.1 (e ▸ List.mem_map_of_mem key hb')
      simp [AMap.get, hkk]

/-- `upsertNode` on an absent key is exactly `addNode`. -/
theorem upsertNode_absent (now : ℚ) (m : List (String × StoreNode))
    (n : WNode) (h : AMap.get m n.id = none) :
    upsertNode now m n = AMap.set m n.id (freshNode now n) := by
  unfold upsertNode
  rw [h]

/-- `upsertLink` on an absent key is exactly `addLink`. -/
theorem upsertLink_absent (now : ℚ) (m : List (String × StoreLink))
    (l : WLink) (h : AMap.get m l.id = none) :
    upsertLink now m l = AMap.set m l.id (freshLink now l) := by
  unfold upsertLink
  rw [h]

theorem keys_map_freshNode (now : ℚ) (ns : List WNode) :
    AMap.keys (ns.map fun n => (n.id, freshNode now n)) = ns.map WNode.id := by
  simp [AMap.keys, List.map_map]

theorem keys_map_freshLink (now : ℚ) (ls : List WLink) :
    AMap.keys (ls.map fun l => (l.id, freshLink now l)) = ls.map WLink.id := by
  simp [AMap.keys, List.map_map]

/-- Lookup does not see the order of two blocks with disjoint key sets. -/
theorem get_append_comm_of_disjoint {α : Type} (m1 m2 : List (String × α))
    (h : ∀ k' ∈ AMap.keys m1, k' ∉ AMap.keys m2) (k : String) :
    AMap.get (m1 ++ m2) k = AMap.get (m2 ++ m1) k := by
  rw [AMap.get_append, AMap.get_append]
  cases h1 : AMap.get m1 k <;> cases h2 : AMap.get m2 k <;> simp
  exact absurd (AMap.mem_keys_of_get_some h2)
    (h k (AMap.mem_keys_of_get_some h1))

/-- C2 (amended): worker result batches with pairwise-disjoint node key
sets and link key sets, applied to the initially-empty store in either
order, produce stores with identical lookups on every key (the maps differ
only in insertion order); for batches sharing a key the claim fails, see
the counterexample. -/
theorem reconcile_batches_commute_on_disjoint_keys (now : ℚ)
    (m1 m2 : WorkerMessage)
    (hn1 : (m1.nodes.map WNode.id).Nodup) (hn2 : (m2.nodes.map WNode.id).Nodup)
    (hnd : ∀ i ∈ m1.nodes.map WNode.id, i ∉ m2.nodes.map WNode.id)
    (hl1 : (m1.links.map WLink.id).Nodup) (hl2 : (m2.links.map WLink.id).Nodup)
    (hld : ∀ i ∈ m1.links.map WLink.id, i ∉ m2.links.map WLink.id)
    (k : String) :
    AMap.get (reconcile now (reconcile now Store.empty m1) m2).nodes k =
      AMap.get (reconcile now (reconcile now Store.empty m2) m1).nodes k ∧
    AMap.get (reconcile now (reconcile now Store.empty m1) m2).links k =
      AMap.get (reconcile now (reconcile now Store.empty m2) m1).links k := by
  have hfN := fun m n h => upsertNode_absent now m n h
  have hfL := fun m l h => upsertLink_absent now m l h
  have s1 : m1.nodes.foldl (upsertNode now) [] =
      m1.nodes.map (fun n => (n.id, freshNode now n)) := by
    rw [foldl_upsert_absent (upsertNode now) WNode.id (freshNode now) hfN
      m1.nodes [] (fun b _ => rfl) hn1]
    simp
  have s2 : m2.nodes.foldl (upsertNode now) [] =
      m2.nodes.map (fun n => (n.id, freshNode now n)) := by
    rw [foldl_upsert_absent (upsertNode now) WNode.id (freshNode now) hfN
      m2.nodes [] (fun b _ => rfl) hn2]
    simp
  have hnd' : ∀ i ∈ m2.nodes.map WNode.id, i ∉ m1.nodes.map WNode.id :=
    fun i h2 h1 => hnd i h1 h2
  have t12 : m2.nodes.foldl (upsertNode now)
      (m1.nodes.map fun n => (n.id, freshNode now n)) =
      (m1.nodes.map fun n => (n.id, freshNode now n)) ++
        (m2.nodes.map fun n => (n.id, freshNode now n)) := by
    refine foldl_upsert_absent (upsertNode now) WNode.id (freshNode now) hfN
      m2.nodes _ ?_ hn2
    intro n hn
    rw [AMap.get_none_iff, keys_map_freshNode]
    exact hnd' n.id (List.mem_map_of_mem WNode.id hn)
  have t21 : m1.nodes.foldl (upsertNode now)
      (m2.nodes.map fun n => (n.id, freshNode now n)) =
      (m2.nodes.map fun n => (n.id, freshNode now n)) ++
        (m1.nodes.map fun n => (n.id, freshNode now n)) := by
    refine foldl_upsert_absent (upsertNode now) WNode.id (freshNode now) hfN
      m1.nodes _ ?_ hn1
    intro n hn
    rw [AMap.get_none_iff, keys_map_freshNode]
    exact hnd n.id (List.mem_map_of_mem WNode.id hn)
  have u1 : m1.links.foldl (upsertLink now) [] =
      m1.links.map (fun l => (l.id, freshLink now l)) := by
    rw [foldl_upsert_absent (upsertLink now) WLink.id (freshLink now) hfL
      m1.links [] (fun b _ => rfl) hl1]
    simp
  have u2 : m2.links.foldl (upsertLink now) [] =
      m2.links.map (fun l => (l.id, freshLink now l)) := by
    rw [foldl_upsert_absent (upsertLink now) WLink.id (freshLink now) hfL
      m2.links [] (fun b _ => rfl) hl2]
    simp
  have hld' : ∀ i ∈ m2.links.map WLink.id, i ∉ m1.links.map WLink.id :=
    fun i h2 h1 => hld i h1 h2
  have v12 : m2.links.foldl (upsertLink now)
      (m1.links.map fun l => (l.id, freshLink now l)) =
      (m1.links.map fun l => (l.id, freshLink now l)) ++
        (m2.links.map fun l => (l.id, freshLink now l)) := by
    refine foldl_upsert_absent (upsertLink now) WLink.id (freshLink now) hfL
      m2.links _ ?_ hl2
    intro l hl
    rw [AMap.get_none_iff, keys_map_freshLink]
    exact hld' l.id (List.mem_map_of_mem WLink.id hl)
  have v21 : m1.links.foldl (upsertLink now)
      (m2.links.map fun l => (l.id, freshLink now l)) =
      (m2.links.map fun l => (l.id, freshLink now l)) ++
        (m1.links.map fun l => (l.id, freshLink now l)) := by
    refine foldl_upsert_absent (upsertLink now) WLink.id (freshLink now) hfL
      m1.links _ ?_ hl1
    intro l hl
    rw [AMap.get_none_iff, keys_map_freshLink]
    exact hld l.id (List.mem_map_of_mem WLink.id hl)
  constructor
  · show AMap.get (m2.nodes.foldl (upsertNode now)
        (m1.nodes.foldl (upsertNode now) [])) k =
      AMap.get (m1.nodes.foldl (upsertNode now)
        (m2.nodes.foldl (upsertNode now) [])) k
    rw [s1, s2, t12, t21]
    refine get_append_comm_of_disjoint _ _ ?_ k
    intro k' h1 h2
    rw [keys_map_freshNode] at h1 h2
    exact hnd k' h1 h2
  · show AMap.get (m2.links.foldl (upsertLink now)
        (m1.links.foldl (upsertLink now) [])) k =
      AMap.get (m1.links.foldl (upsertLink now)
        (m2.links.foldl (upsertLink now) [])) k
    rw [u1, u2, v12, v21]
    refine get_append_comm_of_disjoint _ _ ?_ k
    intro k' h1 h2
    rw [keys_map_freshLink] at h1 h2
    exact hld k' h1 h2

/-- Worker node record used by the C2 concrete batches (id `10.0.0.5`). -/
def wn5 : WNode := { id := "10.0.0.5", ip := "10.0.0.5", packets := 1, bytes := 10 }

/-- Worker node record with a key disjoint from `wn5` (id `10.0.0.6`). -/
def wn6 : WNode := { id := "10.0.0.6", ip := "10.0.0.6", packets := 2, bytes := 20 }

/-- Worker node record sharing `wn5`'s key but with different counters. -/
def wn5' : WNode := { id := "10.0.0.5", ip := "10.0.0.5", packets := 2, bytes := 20 }

/-- Witness for the amended C2: two concrete single-node batches with
disjoint keys reconcile to lookup-identical stores in either order. -/
theorem reconcile_batches_commute_on_disjoint_keys_witness :
    ((([wn5].map WNode.id).Nodup ∧ (([wn6].map WNode.id)).Nodup ∧
      (∀ i ∈ [wn5].map WNode.id, i ∉ [wn6].map WNode.id)) ∧
     (AMap.get (reconcile 0 (reconcile 0 Store.empty ⟨[wn5], [], ⟨1, 10, 1, 0⟩⟩)
          ⟨[wn6], [], ⟨2, 20, 1, 0⟩⟩).nodes "10.0.0.5" =
        AMap.get (reconcile 0 (reconcile 0 Store.empty ⟨[wn6], [], ⟨2, 20, 1, 0⟩⟩)
          ⟨[wn5], [], ⟨1, 10, 1, 0⟩⟩).nodes "10.0.0.5" ∧
      AMap.get (reconcile 0 (reconcile 0 Store.empty ⟨[wn5], [], ⟨1, 10, 1, 0⟩⟩)
          ⟨[wn6], [], ⟨2, 20, 1, 0⟩⟩).links "10.0.0.5" =
        AMap.get (reconcile 0 (reconcile 0 Store.empty ⟨[wn6], [], ⟨2, 20, 1, 0⟩⟩)
          ⟨[wn5], [], ⟨1, 10, 1, 0⟩⟩).links "10.0.0.5")) :=
  ⟨⟨by decide, by decide, by decide⟩,
   reconcile_batches_commute_on_disjoint_keys 0
     ⟨[wn5], [], ⟨1, 10, 1, 0⟩⟩ ⟨[wn6], [], ⟨2, 20, 1, 0⟩⟩
     (by decide) (by decide) (by decide) (by decide) (by decide) (by decide)
     "10.0.0.5"⟩

/-- C2 (counterexample): two single-node batches sharing the key
`10.0.0.5` applied to the empty store in the two orders give different
final maps — the later batch's replacement wins, so `B1;B2` stores
packets 2 while `B2;B1` stores packets 1. -/
theorem reconcile_batches_share_key_order_dependent :
    (AMap.get (reconcile 0 (reconcile 0 Store.empty ⟨[wn5], [], ⟨1, 10, 1, 0⟩⟩)
        ⟨[wn5'], [], ⟨2, 20, 1, 0⟩⟩).nodes "10.0.0.5").map StoreNode.packets =
      some 2 ∧
    (AMap.get (reconcile 0 (reconcile 0 Store.empty ⟨[wn5'], [], ⟨2, 20, 1, 0⟩⟩)
        ⟨[wn5], [], ⟨1, 10, 1, 0⟩⟩).nodes "10.0.0.5").map StoreNode.packets =
      some 1 ∧
    (some (2 : ℤ) : Option ℤ) ≠ some 1 := by
  decide

/-! ## Claim C3: counter width through the pipeline -/

/-- The repeated 1500-byte flow increment aimed at node `10.0.0.2`. -/
def flood : TelemetryEvent :=
  { type := .flow, src := "10.0.0.1", dst := "10.0.0.2", packets := 1,
    bytes := 1500 }

/-- Worker aggregate for the flood source after `n` events. -/
def floodSrc (n : ℕ) : WNode :=
  { id := "10.0.0.1", ip := "10.0.0.1", country := "Unknown",
    packets := (n : ℤ), bytes := 1500 * (n : ℤ) }

/-- Worker aggregate for the flood destination after `n` events. -/
def floodDst (n : ℕ) : WNode :=
  { id := "10.0.0.2", ip := "10.0.0.2", country := "Unknown",
    packets := (n : ℤ), bytes := 1500 * (n : ℤ) }

/-- Worker aggregate for the flood link after `n` events. -/
def floodLink (n : ℕ) : WLink :=
  { id := "10.0.0.1-10.0.0.2-tcp", source := "10.0.0.1", target := "10.0.0.2",
    protocol := "tcp", packets := (n : ℤ), bytes := 1500 * (n : ℤ) }

/-- The batch accumulator after `n` flood events. -/
def floodState (n : ℕ) : BatchState :=
  { nodes := [("10.0.0.1", floodSrc n), ("10.0.0.2", floodDst n)],
    links := [("10.0.0.1-10.0.0.2-tcp", floodLink n)],
    totalPackets := (n : ℤ), totalBytes := 1500 * (n : ℤ),
    npool := [], lpool := [] }

theorem floodStep (n : ℕ) :
    processStep 0 (floodState n) flood = floodState (n + 1) := by
  simp +decide [processStep, flood, floodState, floodSrc, floodDst, floodLink,
    AMap.get, AMap.set, packetsOf, bytesOf, tsOf, protoOf, countryOf]
  ring_nf

theorem floodFold (m : ℕ) : ∀ n : ℕ,
    List.foldl (processStep 0) (floodState n) (List.replicate m flood) =
      floodState (n + m) := by
  induction m with
  | zero => intro n; simp
  | succ m ih =>
    intro n
    rw [List.replicate_succ, List.foldl_cons, floodStep n, ih (n + 1)]
    ring_nf

theorem floodBase :
    processStep 0
      { nodes := [], links := [], totalPackets := 0, totalBytes := 0,
        npool := [], lpool := [] } flood = floodState 1 := by
  decide

/-- The full batch accumulator for `10^7` flood events. -/
theorem floodWhole :
    List.foldl (processStep 0)
      { nodes := [], links := [], totalPackets := 0, totalBytes := 0,
        npool := [], lpool := [] } (List.replicate (10 ^ 7) flood) =
      floodState (10 ^ 7) := by
  rw [show (10 ^ 7 : ℕ) = (10 ^ 7 - 1) + 1 from by norm_num,
    List.replicate_succ, List.foldl_cons, floodBase, floodFold (10 ^ 7 - 1) 1]
  norm_num

/-- C3 (amended, positive part): within a single batch, the worker's BigInt
accumulation of `10^7` increments of 1500 bytes addressed to node
`10.0.0.2` is exact — the node's byte counter and the batch byte total both
equal `1.5 × 10^10` — and the reconciler's `Number(bigint)` narrowing is
exact at this magnitude, which is still below `2^53`. -/
theorem processBatch_fst_nodes (now : ℚ) (np : List WNode) (lp : List WLink)
    (es : List TelemetryEvent) :
    (processBatch now np lp es).1.nodes =
      (es.foldl (processStep now)
        { nodes := [], links := [], totalPackets := 0, totalBytes := 0,
          npool := np, lpool := lp }).nodes := rfl

theorem processBatch_stats_bytes (now : ℚ) (np : List WNode) (lp : List WLink)
    (es : List TelemetryEvent) :
    (processBatch now np lp es).1.stats.bytes =
      (es.foldl (processStep now)
        { nodes := [], links := [], totalPackets := 0, totalBytes := 0,
          npool := np, lpool := lp }).totalBytes := rfl

theorem worker_accumulates_1e10_exactly :
    (AMap.get (processBatch 0 [] [] (List.replicate (10 ^ 7) flood)).1.nodes
        "10.0.0.2").map WNode.bytes = some 15000000000 ∧
    (processBatch 0 [] [] (List.replicate (10 ^ 7) flood)).1.stats.bytes =
      15000000000 ∧
    toF64 15000000000 = 15000000000 := by
  refine ⟨?_, ?_, ?_⟩
  · rw [processBatch_fst_nodes, floodWhole]
    simp +decide [floodState, floodDst, AMap.get]
  · rw [processBatch_stats_bytes, floodWhole]
    simp [floodState]
  · rw [show (15000000000 : ℤ) = ((15000000000 : ℕ) : ℤ) from by norm_num,
      toF64_coe_of_le 15000000000 (by norm_num)]

/-- `Number(bigint)` rounds `2^53 + 1` — the first integer a binary64 float
cannot represent — down to `2^53` (round to nearest, ties to even). -/
theorem natToF64_at_2pow53_succ : natToF64 (2 ^ 53 + 1) = 2 ^ 53 := by
  unfold natToF64
  rw [if_neg (by norm_num)]
  have hlog : Nat.log 2 (2 ^ 53 + 1) = 53 :=
    Nat.log_eq_of_pow_le_of_lt_pow (by norm_num) (by norm_num)
  simp only [hlog]
  norm_num

/-- A worker node whose BigInt counters exceed the 53-bit float-exact
range. -/
def wBig : WNode :=
  { id := "10.0.0.8", ip := "10.0.0.8", packets := 2 ^ 53 + 1,
    bytes := 2 ^ 53 + 1 }

/-- C3 (counterexample): the store's counters are *not* kept in a type
wider than a 53-bit-safe float: reconciling a worker node whose byte
counter is the BigInt `2^53 + 1` stores `2^53` — the `Number(bigint)`
narrowing in `worker.onmessage` loses precision, so overflow safety does
not extend from the data model outward. -/
theorem store_counter_loses_precision_beyond_53_bits :
    (AMap.get (reconcile 0 Store.empty
        ⟨[wBig], [], ⟨2 ^ 53 + 1, 2 ^ 53 + 1, 1, 0⟩⟩).nodes
      "10.0.0.8").map StoreNode.bytes = some (2 ^ 53) ∧
    ((2 ^ 53 : ℤ)) ≠ 2 ^ 53 + 1 := by
  constructor
  · have hb : toF64 (2 ^ 53 + 1 : ℤ) = (2 ^ 53 : ℤ) := by
      rw [show ((2 : ℤ) ^ 53 + 1) = (((2 ^ 53 + 1 : ℕ) : ℤ)) from by norm_num]
      unfold toF64
      rw [if_neg (not_lt.2 (Int.natCast_nonneg _)), Int.natAbs_ofNat,
        natToF64_at_2pow53_succ]
      norm_num
    simp +decide [reconcile, Store.empty, upsertNode, AMap.get, AMap.set,
      freshNode, wBig, List.foldl]
    rw [show (9007199254740993 : ℤ) = 2 ^ 53 + 1 from by norm_num, hb]
    norm_num
  · norm_num

/-! ## Claim C6: ring buffer drop-oldest retention -/

theorem add_mod_inj {C a i j : ℕ} (hi : i < C) (hj : j < C)
    (h : (a + i) % C = (a + j) % C) : i = j := by
  have h' : i ≡ j [MOD C] := Nat.ModEq.add_left_cancel' a h
  rwa [Nat.ModEq, Nat.mod_eq_of_lt hi, Nat.mod_eq_of_lt hj] at h'

theorem getD_tail {T : Type} (l : List T) (i : ℕ) (d : T) :
    l.tail.getD i d = l.getD (i + 1) d := by
  cases l <;> rfl

def stepAbs {T : Type} (C : ℕ) (l : List T) (x : T) : List T :=
  if l.length < C then l ++ [x] else l.tail ++ [x]

def RingInv {T : Type} (C : ℕ) (d : T) (rb : RingBuffer T) (l : List T) : Prop :=
  rb.capacity = C ∧ rb.size = l.length ∧ l.length ≤ C ∧ rb.read < C ∧
  rb.write = (rb.read + rb.size) % C ∧
  ∀ i, i < l.length → rb.buffer ((rb.read + i) % C) = l.getD i d

theorem RingInv.push {T : Type} {C : ℕ} {d : T} {rb : RingBuffer T}
    {l : List T} (hC : 1 ≤ C) (h : RingInv C d rb l) (x : T) :
    RingInv C d (rb.pushItem x) (stepAbs C l x) := by
  obtain ⟨cap, buf, w, r, sz⟩ := rb
  obtain ⟨hcap, hsize, hlen, hread, hwrite, hbuf⟩ := h
  dsimp only at hcap hsize hwrite hread hbuf ⊢
  have hcap' : C = cap := hcap.symm
  subst hcap' hsize hwrite
  have hCpos : 0 < C := hC
  unfold RingBuffer.pushItem RingBuffer.push stepAbs
  dsimp only
  by_cases hfull : l.length < C
  · rw [if_pos hfull, if_pos hfull]
    refine ⟨rfl, by simp, by simpa using hfull, hread, ?_, ?_⟩
    · dsimp only
      rw [Nat.mod_add_mod, Nat.add_assoc]
    · intro i hi
      dsimp only
      simp only [List.length_append, List.length_singleton] at hi
      rcases Nat.lt_succ_iff_lt_or_eq.mp hi with hi' | hi'
      · rw [if_neg ?_, hbuf i hi', List.getD_append _ _ _ _ hi']
        intro hcontra
        exact absurd (add_mod_inj (lt_trans hi' hfull) hfull hcontra)
          (Nat.ne_of_lt hi')
      · subst hi'
        rw [if_pos rfl]
        simp [List.getD_eq_getElem?_getD]
  · rw [if_neg hfull, if_neg hfull]
    have hlenC : l.length = C := le_antisymm hlen (not_lt.mp hfull)
    have hw : (r + l.length) % C = r := by
      rw [hlenC, Nat.add_mod_right, Nat.mod_eq_of_lt hread]
    have htail : (l.tail ++ [x]).length = C := by
      simp [List.length_tail]
      omega
    refine ⟨rfl, ?_, by rw [htail], ?_, ?_, ?_⟩
    · dsimp only
      rw [hlenC, htail]
    · dsimp only
      exact Nat.mod_lt _ hCpos
    · dsimp only
      rw [hw, Nat.mod_add_mod, hlenC, Nat.add_mod_right]
    · intro i hi
      dsimp only
      rw [htail] at hi
      rw [Nat.mod_add_mod, hw]
      have htl : l.tail.length = C - 1 := by
        simp [List.length_tail, hlenC]
      by_cases hlast : i = C - 1
      · subst hlast
        have h1 : 1 + (C - 1) = C := by omega
        rw [if_pos ?_]
        · rw [← htl]
          simp [List.getD_eq_getElem?_getD]
        · rw [Nat.add_assoc, h1, Nat.add_mod_right, Nat.mod_eq_of_lt hread]
      · have hi' : i < C - 1 := by omega
        rw [if_neg ?_]
        · have h2 : i + 1 < l.length := by omega
          rw [show r + 1 + i = r + (i + 1) from by ring, hbuf (i + 1) h2]
          rw [List.getD_append _ _ _ _ (by omega : i < l.tail.length), getD_tail]
        · intro hcontra
          rw [show r + 1 + i = r + (1 + i) from by ring] at hcontra
          have h3 : (r + (1 + i)) % C = (r + 0) % C := by
            rw [Nat.add_zero, Nat.mod_eq_of_lt hread]
            exact hcontra
          have := add_mod_inj (by omega : 1 + i < C) hCpos h3
          omega

theorem RingInv.init {T : Type} (C : ℕ) (d : T) (hC : 1 ≤ C) :
    RingInv C d (mkRingBuffer C d) [] := by
  refine ⟨rfl, rfl, Nat.zero_le C, hC, by simp [mkRingBuffer], ?_⟩
  intro i hi
  simp at hi

theorem RingInv.pushAll {T : Type} {C : ℕ} {d : T} (hC : 1 ≤ C)
    (xs : List T) : ∀ {rb : RingBuffer T} {l : List T}, RingInv C d rb l →
    RingInv C d (rb.pushAll xs) (xs.foldl (stepAbs C) l) := by
  induction xs with
  | nil => intro rb l h; exact h
  | cons x xs ih =>
    intro rb l h
    exact ih (h.push hC x)

theorem toArray_of_inv {T : Type} {C : ℕ} {d : T} {rb : RingBuffer T}
    {l : List T} (h : RingInv C d rb l) : rb.toArray = l := by
  obtain ⟨hcap, hsize, hlen, hread, hwrite, hbuf⟩ := h
  unfold RingBuffer.toArray
  apply List.ext_getElem
  · simp [hsize]
  · intro i h1 h2
    simp only [List.getElem_map, List.getElem_range]
    rw [hcap, hbuf i h2, List.getD_eq_getElem l d h2]

theorem foldl_stepAbs {T : Type} (C : ℕ) (hC : 1 ≤ C) (xs : List T) :
    ∀ l : List T, l.length ≤ C →
    xs.foldl (stepAbs C) l = (l ++ xs).drop (l.length + xs.length - C) := by
  induction xs with
  | nil =>
    intro l hl
    simp [Nat.sub_eq_zero_of_le hl]
  | cons x xs ih =>
    intro l hl
    rw [List.foldl_cons]
    by_cases hfull : l.length < C
    · rw [show stepAbs C l x = l ++ [x] from by unfold stepAbs; rw [if_pos hfull]]
      rw [ih (l ++ [x]) (by simp; omega)]
      simp
      congr 1
      omega
    · have hlenC : l.length = C := le_antisymm hl (not_lt.mp hfull)
      have hne : l ≠ [] := by
        intro e
        rw [e] at hlenC
        simp at hlenC
        omega
      rw [show stepAbs C l x = l.tail ++ [x] from by
        unfold stepAbs; rw [if_neg hfull]]
      rw [ih (l.tail ++ [x]) (by simp [List.length_tail]; omega)]
      simp [List.length_tail]
      rw [show l ++ x :: xs = l.head hne :: (l.tail ++ x :: xs) from by
        rw [← List.cons_append, List.head_cons_tail]]
      rw [show l.length + (xs.length + 1) - C = l.length + xs.length - C + 1
        from by omega]
      rw [List.drop_succ_cons]
      congr 1
      omega

/-- C6: pushing `N > C ≥ 1` events into a capacity-`C` ring buffer leaves
exactly `C` events retrievable by iteration/`toArray`, and they are the `C`
most recently pushed events in insertion order (the oldest `N − C` are
dropped). -/
theorem ring_buffer_keeps_most_recent (T : Type) (d : T) (C : ℕ)
    (xs : List T) (hC : 1 ≤ C) (hN : C < xs.length) :
    ((mkRingBuffer C d).pushAll xs).toArray = xs.drop (xs.length - C) ∧
    ((mkRingBuffer C d).pushAll xs).toArray.length = C := by
  have hinv := RingInv.pushAll (d := d) hC xs (RingInv.init C d hC)
  have harr := toArray_of_inv hinv
  rw [foldl_stepAbs C hC xs [] (by simp)] at harr
  simp only [List.nil_append, List.length_nil, Nat.zero_add] at harr
  refine ⟨harr, ?_⟩
  rw [harr, List.length_drop]
  omega

/-- Witness for C6: five pushes into a capacity-2 buffer keep the last
two. -/
theorem ring_buffer_keeps_most_recent_witness :
    (1 ≤ 2 ∧ 2 < [10, 20, 30, 40, 50].length) ∧
    (((mkRingBuffer 2 (0 : ℕ)).pushAll [10, 20, 30, 40, 50]).toArray =
        [10, 20, 30, 40, 50].drop ([10, 20, 30, 40, 50].length - 2) ∧
      ((mkRingBuffer 2 (0 : ℕ)).pushAll [10, 20, 30, 40, 50]).toArray.length = 2) :=
  ⟨⟨by decide, by decide⟩,
   ring_buffer_keeps_most_recent ℕ 0 2 [10, 20, 30, 40, 50] (by decide)
     (by decide)⟩

/-! ## Claim C7: partial pushes and slot defaults -/

/-- A sequence of partial-event pushes. -/
def RingBuffer.pushAllPartial (rb : RingBuffer TelemetryEvent)
    (ps : List PartialEvent) : RingBuffer TelemetryEvent :=
  ps.foldl RingBuffer.pushPartial rb

/-- Before the buffer first wraps, the unwritten slots still hold the
factory value and the cursors sit at the number of pushes done. -/
theorem pushAllPartial_fresh (C : ℕ) (d : TelemetryEvent)
    (ps : List PartialEvent) : ps.length < C →
    ((mkRingBuffer C d).pushAllPartial ps).write = ps.length ∧
    ((mkRingBuffer C d).pushAllPartial ps).size = ps.length ∧
    ((mkRingBuffer C d).pushAllPartial ps).read = 0 ∧
    ((mkRingBuffer C d).pushAllPartial ps).capacity = C ∧
    ∀ i, ps.length ≤ i → ((mkRingBuffer C d).pushAllPartial ps).buffer i = d := by
  induction ps using List.reverseRecOn with
  | nil =>
    intro _
    exact ⟨rfl, rfl, rfl, rfl, fun i _ => rfl⟩
  | append_singleton l p ih =>
    intro hlen
    rw [List.length_append, List.length_singleton] at hlen
    obtain ⟨hw, hs, hr, hc, hb⟩ := ih (by omega)
    have hstep : (mkRingBuffer C d).pushAllPartial (l ++ [p]) =
        ((mkRingBuffer C d).pushAllPartial l).pushPartial p := by
      unfold RingBuffer.pushAllPartial
      rw [List.foldl_append]
      rfl
    rw [hstep]
    unfold RingBuffer.pushPartial RingBuffer.push
    rw [if_pos (by rw [hs, hc]; omega)]
    refine ⟨?_, ?_, ?_, ?_, ?_⟩
    · dsimp only
      rw [hw, hc, List.length_append, List.length_singleton,
        Nat.mod_eq_of_lt hlen]
    · dsimp only
      rw [hs, List.length_append, List.length_singleton]
    · dsimp only
      exact hr
    · dsimp only
      exact hc
    · intro i hi
      rw [List.length_append, List.length_singleton] at hi
      dsimp only
      rw [if_neg (by rw [hw]; omega), hb i (by omega)]

/-- C7 (amended): `push` is total (it never throws), and a pushed partial
record is `Object.assign`ed over the slot's current occupant: fields not
specified read back as the *occupant's* values.  While the buffer has not
yet wrapped (fewer pushes than the capacity), the target slot still holds
the factory value, so unspecified fields do read back as factory defaults —
e.g. an omitted `bytes` reads as `bufferFactory`'s `0`. -/
theorem unspecified_fields_default_before_wrap (C : ℕ) (d : TelemetryEvent)
    (ps : List PartialEvent) (p : PartialEvent) (h : ps.length < C) :
    (((mkRingBuffer C d).pushAllPartial ps).pushPartial p).buffer ps.length =
      assignEvent d p ∧
    (p.bytes = none →
      ((((mkRingBuffer C d).pushAllPartial ps).pushPartial p).buffer
        ps.length).bytes = d.bytes) := by
  obtain ⟨hw, hs, hr, hc, hb⟩ := pushAllPartial_fresh C d ps h
  have hslot : (((mkRingBuffer C d).pushAllPartial ps).pushPartial p).buffer
      ps.length = assignEvent d p := by
    unfold RingBuffer.pushPartial RingBuffer.push
    by_cases hfull : ((mkRingBuffer C d).pushAllPartial ps).size <
        ((mkRingBuffer C d).pushAllPartial ps).capacity
    · rw [if_pos hfull]
      dsimp only
      rw [if_pos hw.symm, hw, hb ps.length le_rfl]
    · rw [if_neg hfull]
      dsimp only
      rw [if_pos hw.symm, hw, hb ps.length le_rfl]
  refine ⟨hslot, fun hbytes => ?_⟩
  rw [hslot]
  unfold assignEvent
  rw [hbytes]
  rfl

/-- Witness for the amended C7: after one push into a fresh capacity-3
buffer, a second partial push with no `bytes` field reads back
`bufferFactory`'s zero. -/
theorem unspecified_fields_default_before_wrap_witness :
    ([({ type := some .flow, bytes := some 100 } : PartialEvent)].length < 3) ∧
    ((((mkRingBuffer 3 bufferFactory).pushAllPartial
        [{ type := some .flow, bytes := some 100 }]).pushPartial
        { type := some .flow, src := some "10.0.0.3" }).buffer 1 =
      assignEvent bufferFactory { type := some .flow, src := some "10.0.0.3" } ∧
    (({ type := some .flow, src := some "10.0.0.3" } : PartialEvent).bytes = none →
      ((((mkRingBuffer 3 bufferFactory).pushAllPartial
          [{ type := some .flow, bytes := some 100 }]).pushPartial
          { type := some .flow, src := some "10.0.0.3" }).buffer 1).bytes =
        bufferFactory.bytes)) :=
  ⟨by decide,
   unspecified_fields_default_before_wrap 3 bufferFactory
     [{ type := some .flow, bytes := some 100 }]
     { type := some .flow, src := some "10.0.0.3" } (by decide)⟩

/-- C7 (counterexample): once a slot is reused, an unspecified field reads
back the *previous occupant's* value, not the factory default: in a
capacity-1 buffer, pushing an event with `bytes = 100` and then a partial
event without `bytes` leaves the slot reading `bytes = 100`, while the
factory default is `0`. -/
theorem partial_push_reads_stale_field :
    (((mkRingBuffer 1 bufferFactory).pushPartial
        { type := some .flow, src := some "10.0.0.1", dst := some "10.0.0.2",
          packets := some 1, bytes := some 100 }).pushPartial
        { type := some .flow, src := some "10.0.0.3",
          dst := some "10.0.0.4" }).toArray.map TelemetryEvent.bytes =
      [100] ∧
    bufferFactory.bytes = 0 ∧ (100 : ℕ) ≠ 0 := by
  decide
